import Mathlib

/-!
Verification of the asana-seed-data generators.

Shallow embedding conventions:
* a `datetime` is a rational number of seconds since the Unix epoch (`ℚ`);
* a `date` is an integer number of days since the Unix epoch (`ℤ`);
  1970-01-01 was a Thursday, so Python's `date.weekday` (Monday = 0) of
  day `d` is `(d + 3) % 7`;
* every call to the shared pseudo-random stream becomes an explicit
  parameter: a Beta/uniform fraction becomes a `ℚ` argument, a rounded
  triangular draw becomes a `ℤ` argument, a probability test becomes a
  `Bool` argument, and a uniform choice of an element becomes a `ℕ` index;
* fallible code returns `Except String`.
-/

namespace AsanaSeed

/-- `random_datetime_between` from `src/utils/dates.py`: if `start >= end`
return `start`, else return `start + (end - start) * (1 - frac)` where
`frac` is the Beta(2,5) draw. -/
def random_datetime_between (start e frac : ℚ) : ℚ :=
  if e ≤ start then start
  else start + (e - start) * (1 - frac)

/-- Python `date.weekday` (Monday = 0) of an epoch-day number. -/
def weekday (d : ℤ) : ℤ := (d + 3) % 7

/-- `_to_business_day` from `src/utils/dates.py`.  `coin` models
`random.random() < 0.6`: Saturday moves to Friday when the coin is true,
else to Monday; Sunday always moves to Monday. -/
def to_business_day (coin : Bool) (d : ℤ) : ℤ :=
  if weekday d < 5 then d
  else if weekday d = 5 then (if coin then d - 1 else d + 2)
  else d + 1

/-- `datetime.date()`: epoch-day of an epoch-second timestamp. -/
def dateOf (t : ℚ) : ℤ := ⌊t / 86400⌋

/-- `business_due_date_from_created` from `src/utils/dates.py`.  `tri`
models `int(round(random.triangular(min_days, max_days, mode)))`; the code
then clamps it into `[min_days, max_days]` exactly as below. -/
def business_due_date_from_created (created_at : ℚ) (min_days max_days : ℤ)
    (tri : ℤ) (coin : Bool) : ℤ :=
  if max_days ≤ 0 then to_business_day coin (dateOf created_at)
  else
    let offset_days := max min_days (min max_days tri)
    to_business_day coin (dateOf created_at + offset_days)

/-- `completed_after_created` from `src/utils/dates.py`.
`earliest = created + min_hours`, `latest = created + max_days`; a due date
lowers both bounds (`due_dt - 7 days`, `due_dt + 14 days` where `due_dt` is
midnight of the due date); a degenerate interval returns `earliest`. -/
def completed_after_created (created_at : ℚ) (due : Option ℤ)
    (min_hours max_days : ℤ) (frac : ℚ) : ℚ :=
  let earliest0 : ℚ := created_at + 3600 * (min_hours : ℚ)
  let latest0 : ℚ := created_at + 86400 * (max_days : ℚ)
  let earliest : ℚ :=
    match due with
    | none => earliest0
    | some d => min earliest0 (86400 * (d : ℚ) - 604800)
  let latest : ℚ :=
    match due with
    | none => latest0
    | some d => min latest0 (86400 * (d : ℚ) + 1209600)
  if latest ≤ earliest then earliest
  else random_datetime_between earliest latest frac

/-- `is_overdue` from `src/utils/dates.py`: due set, not completed, and due
strictly before `now`'s date. -/
def is_overdue (due : Option ℤ) (completed_at : Option ℚ) (now : ℚ) : Bool :=
  match due with
  | none => false
  | some d =>
    match completed_at with
    | some _ => false
    | none => decide (d < dateOf now)

/-- The random draws consumed for one task in `generate_tasks`
(`src/generators/tasks.py`): the Beta fraction for `created_at`, the two
due-date probability rolls (`random.random() < 0.85` / `< 0.35`), the
triangular draw and weekend coin inside `business_due_date_from_created`,
the completion roll (`random.random() < completion_ratio`), the Beta
fraction inside `completed_after_created`, and the overdue-injection roll
(`random.random() < overdue_task_probability`). -/
structure TaskDraws where
  createdFrac : ℚ
  roll085 : Bool
  roll035 : Bool
  dueTri : ℤ
  dueCoin : Bool
  completedRoll : Bool
  completedFrac : ℚ
  overdueRoll : Bool

/-- The lifecycle fields of one generated task row. -/
structure TaskRec where
  created_at : ℚ
  due_date : Option ℤ
  completed_at : Option ℚ
  last_activity_at : ℚ

/-- The per-task body of `generate_tasks` (`src/generators/tasks.py`,
lines 113–143): sample `created_at` between project creation and `now`;
draw a due date (85% for roadmap/sprint/launch via
`business_due_date_from_created(created, 3, 75)`, else 35% via
`business_due_date_from_created(created, 5, 45)`); with probability
`completion_ratio` draw `completed_after_created(created, due)` (defaults
`min_hours = 1`, `max_days = 60`); for incomplete tasks with a due date the
overdue-injection roll replaces a not-yet-past due date (`due >= now.date()`)
by `now.date()`; `last_activity_at` is the completion time if complete else
the creation time. -/
def genTask (ptype : String) (project_created now : ℚ) (d : TaskDraws) : TaskRec :=
  let created_at := random_datetime_between project_created now d.createdFrac
  let has_due := ptype == "roadmap" || ptype == "sprint" || ptype == "launch"
  let due0 : Option ℤ :=
    if has_due && d.roll085 then
      some (business_due_date_from_created created_at 3 75 d.dueTri d.dueCoin)
    else if d.roll035 then
      some (business_due_date_from_created created_at 5 45 d.dueTri d.dueCoin)
    else none
  let completed_at : Option ℚ :=
    if d.completedRoll then
      some (completed_after_created created_at due0 1 60 d.completedFrac)
    else none
  let due_date : Option ℤ :=
    match due0, completed_at with
    | some dd, none =>
        if d.overdueRoll then (if dateOf now ≤ dd then some (dateOf now) else some dd)
        else some dd
    | dd, _ => dd
  let last_activity_at : ℚ :=
    match completed_at with
    | some c => c
    | none => created_at
  { created_at := created_at, due_date := due_date,
    completed_at := completed_at, last_activity_at := last_activity_at }

/-- Concrete draw vector: incomplete sprint task whose due date (epoch day
15) is still in the future at `now` (epoch day 10) and whose
overdue-injection roll fires. -/
def c3Draws : TaskDraws :=
  { createdFrac := 1/2, roll085 := true, roll035 := false, dueTri := 10,
    dueCoin := false, completedRoll := false, completedFrac := 1/2,
    overdueRoll := true }

/-- Concrete draw vector: completed sprint task whose due date falls one
business-snapped offset of 3 days after creation, so the completion window
starts 7 days before the due date — before `created_at` — and a Beta draw
of 0.9 lands the completion time before creation. -/
def c4Draws : TaskDraws :=
  { createdFrac := 1/2, roll085 := true, roll035 := false, dueTri := 3,
    dueCoin := false, completedRoll := true, completedFrac := 9/10,
    overdueRoll := false }

/-- The comment-timestamp chain of `generate_comments`
(`src/generators/comments.py`, lines 52–59): starting from the task's
`created_at`, each comment samples
`random_datetime_between(last_comment_time, end)` and becomes the new
`last_comment_time`; `end` is the task's completion time if set, else
`now`.  One list element per requested comment, carrying that comment's
Beta draw. -/
def commentTimes (start endT : ℚ) : List ℚ → List ℚ
  | [] => []
  | f :: fs =>
    let ts := random_datetime_between start endT f
    ts :: commentTimes ts endT fs

/-- The final value of `last_comment_time` after the comment loop: the last
generated timestamp, or the task's `created_at` when no comment was
generated. -/
def lastCommentTime (start endT : ℚ) (fracs : List ℚ) : ℚ :=
  (commentTimes start endT fracs).getLastD start

/-- The `UPDATE tasks SET last_activity_at = MAX(last_activity_at, ?)`
statement of `src/generators/comments.py` (lines 80–84).  ISO-8601 strings
of one timezone compare lexicographically exactly as the underlying times,
so SQLite's two-argument `MAX` is `max` on the embedded rationals. -/
def updated_last_activity (last_activity lastComment : ℚ) : ℚ :=
  max last_activity lastComment

/-- Team creation in `generate_teams` (`src/generators/teams.py`, line
98–99): `org_created + timedelta(days=365 * uniform(0.5, 9.0))`. -/
def team_created_at (org_created years_after_org : ℚ) : ℚ :=
  org_created + 86400 * (365 * years_after_org)

/-- Project creation in `generate_projects` (`src/generators/projects.py`,
lines 89–90): `team_created + timedelta(days=randint(30, 900))`. -/
def project_created_at (team_created : ℚ) (days_after_team : ℤ) : ℚ :=
  team_created + 86400 * (days_after_team : ℚ)

/-- The fixed catalog of functional-area team names in `generate_teams`
(`src/generators/teams.py`, lines 55–71).  The associated weights only
shape the draw distribution; in the nondeterministic model the outcome of
each `random.choices` call is supplied by the draw stream directly. -/
def base_names : List String :=
  ["Engineering", "Product", "Design", "Marketing", "Sales",
   "Customer Success", "Data", "IT", "Security", "Finance",
   "People Operations", "Recruiting", "Quality Assurance",
   "Business Operations", "Program Management"]

/-- One iteration body of `_weighted_unique_sample`
(`src/generators/teams.py`, lines 30–33): append the drawn name unless it
was already chosen. -/
def sampleStep (chosen : List String) (pick : String) : List String :=
  if pick ∈ chosen then chosen else chosen ++ [pick]

/-- Negation of the `while` guard of `_weighted_unique_sample`: the loop
stops once `len(chosen) < target and len(chosen) < len(options)` fails. -/
def sampleDone (options : List String) (target : ℕ) (chosen : List String) : Prop :=
  ¬ (chosen.length < target ∧ chosen.length < options.length)

instance (options : List String) (target : ℕ) (chosen : List String) :
    Decidable (sampleDone options target chosen) := by
  unfold sampleDone; infer_instance

/-- State of `_weighted_unique_sample`'s `chosen` list after inspecting the
first `n` draws of the stream `s` (each draw is one `random.choices`
outcome); once the loop guard fails the state freezes. -/
def chosenAfter (options : List String) (target : ℕ) (s : ℕ → String) : ℕ → List String
  | 0 => []
  | n + 1 =>
    if sampleDone options target (chosenAfter options target s n) then
      chosenAfter options target s n
    else sampleStep (chosenAfter options target s n) (s n)

/-- Termination of `_weighted_unique_sample` on draw stream `s`: some
finite number of draws makes the loop guard fail. -/
def sampleTerminatesOn (options : List String) (target : ℕ) (s : ℕ → String) : Prop :=
  ∃ n, sampleDone options target (chosenAfter options target s n)

/-- A team record as carried between generators (`id`, unique `name`). -/
structure TeamRec where
  id : String
  name : String
deriving DecidableEq

/-- `team_ids` in `generate_team_memberships`
(`src/generators/team_memberships.py`, line 84). -/
def team_ids (teams : List TeamRec) : List String := teams.map (·.id)

/-- `team_by_name[name]` lookup (`src/generators/team_memberships.py`,
lines 83, 94): a Python dict comprehension keeps the LAST team with each
name, hence the search over the reversed roster. -/
def lookup_team_id (teams : List TeamRec) (name : String) : Option String :=
  (teams.reverse.find? (fun t => t.name == name)).map (·.id)

/-- Substring search on character lists (Python's `tok in s`). -/
def tokenAt : List Char → List Char → Bool
  | [], _ => true
  | _ :: _, [] => false
  | c :: cs, d :: ds => c == d && tokenAt cs ds

/-- Whether `tok` occurs as a contiguous substring of the second list. -/
def hasToken (tok : List Char) : List Char → Bool
  | [] => tokenAt tok []
  | c :: cs => tokenAt tok (c :: cs) || hasToken tok cs

/-- Python's `str.lower()`, as a character list. -/
def lower_chars (s : String) : List Char := s.toList.map Char.toLower

/-- Python's `tok in s` on a lowered character list. -/
def str_has (s : List Char) (tok : String) : Bool := hasToken tok.toList s

/-- `_role_to_preferred_team_names` from
`src/generators/team_memberships.py` (lines 21–48), with the same
case-insensitive keyword tests in the same order. -/
def role_to_preferred_team_names (role : String) : List String :=
  let r := lower_chars role
  if str_has r "engineer" && !(str_has r "qa") then ["Engineering", "Security", "IT"]
  else if str_has r "qa" then ["Quality Assurance", "Engineering"]
  else if str_has r "product" then ["Product", "Program Management"]
  else if str_has r "design" then ["Design"]
  else if str_has r "data" || str_has r "analyst" then ["Data"]
  else if str_has r "sales" then ["Sales"]
  else if str_has r "customer success" || str_has r "account" then ["Customer Success", "Sales"]
  else if str_has r "security" then ["Security", "Engineering"]
  else if str_has r "it" then ["IT"]
  else if str_has r "finance" then ["Finance", "Business Operations"]
  else if str_has r "people" || str_has r "recruit" then ["People Operations", "Recruiting"]
  else if str_has r "program" || str_has r "project" then ["Program Management", "Product"]
  else ["Business Operations"]

/-- `preferred_ids` (`src/generators/team_memberships.py`, line 94): the
preferred names that exist in the roster, mapped to team ids, in
preference order. -/
def preferred_team_ids (teams : List TeamRec) (role : String) : List String :=
  (role_to_preferred_team_names role).filterMap (lookup_team_id teams)

/-- `remaining_ids` (`src/generators/team_memberships.py`, line 95). -/
def remaining_team_ids (teams : List TeamRec) (role : String) : List String :=
  (team_ids teams).filter (fun tid => !((preferred_team_ids teams role).contains tid))

/-- The `for tid in preferred_ids` fill loop of `generate_team_memberships`
(`src/generators/team_memberships.py`, lines 98–102): append preferred
team ids until `desired` slots are filled.  `desired` is the categorical
draw from {1, 2, 3}. -/
def chosen_from_preferred (teams : List TeamRec) (role : String)
    (desired : ℕ) : List String :=
  (preferred_team_ids teams role).take desired

/-- The shortfall fill (lines 104–105): when still short of `desired`,
extend with `extras`, the outcome of
`random.sample(remaining_ids, k=min(len(remaining_ids), desired - len(chosen)))`
(constrained in the theorems exactly as `random.sample` guarantees). -/
def chosen_with_extras (teams : List TeamRec) (role : String) (desired : ℕ)
    (extras : List String) : List String :=
  if (chosen_from_preferred teams role desired).length < desired then
    chosen_from_preferred teams role desired ++ extras
  else chosen_from_preferred teams role desired

/-- The per-user team selection of `generate_team_memberships` (lines
90–110), ending with the zero-membership guard
`if not chosen and team_ids: chosen = [random.choice(team_ids)]`;
`fallback` indexes that `random.choice`. -/
def route_user (teams : List TeamRec) (role : String) (desired : ℕ)
    (extras : List String) (fallback : ℕ) : List String :=
  if chosen_with_extras teams role desired extras = [] ∧ team_ids teams ≠ [] then
    [(team_ids teams).getD (fallback % (team_ids teams).length) ""]
  else chosen_with_extras teams role desired extras

/-- `_pick_membership_role` from `src/generators/team_memberships.py`
(lines 58–66): manager/lead/staff titles give "lead" when the first roll
exceeds 0.3; otherwise a flat 7% second roll gives "lead", else "member".
`r1`/`r2` are the two `random.random()` draws. -/
def pick_membership_role (user_role : String) (r1 r2 : ℚ) : String :=
  let is_manager_title :=
    ["manager", "lead", "staff"].any (fun tok => str_has (lower_chars user_role) tok)
  if is_manager_title && decide (r1 > 3/10) then "lead"
  else if r2 < 7/100 then "lead" else "member"

/-- `added_at = now - timedelta(days=random.randint(30, 900))`
(`src/generators/team_memberships.py`, line 112). -/
def membership_added_at (now : ℚ) (days : ℤ) : ℚ := now - 86400 * (days : ℚ)

/-- One team-membership row. -/
structure MembershipRec where
  team_id : String
  user_id : String
  role : String
  added_at : ℚ
deriving DecidableEq

/-- The inner `for tid in chosen` loop of `generate_team_memberships`
(lines 115–125): one row per chosen team, all sharing the role and
`added_at` drawn before the loop. -/
def memberships_for_user (user_id : String) (chosen : List String)
    (role : String) (added : ℚ) : List MembershipRec :=
  chosen.map (fun tid =>
    { team_id := tid, user_id := user_id, role := role, added_at := added })

/-- The whole per-user body of `generate_team_memberships` (lines 89–125):
route the user to teams, then draw `added_at` and the membership role once
and emit one row per chosen team. -/
def route_and_member_user (teams : List TeamRec) (user_id user_role : String)
    (desired : ℕ) (extras : List String) (fallback : ℕ)
    (now : ℚ) (days : ℤ) (r1 r2 : ℚ) : List MembershipRec :=
  memberships_for_user user_id (route_user teams user_role desired extras fallback)
    (pick_membership_role user_role r1 r2) (membership_added_at now days)

/-- The fields of an input task record that `generate_subtasks` reads. -/
structure TaskIn where
  id : String
  created_at : ℚ
  due_date : Option ℤ
  completed_at : Option ℚ
  assignee_id : Option String
deriving DecidableEq

/-- `possible_creators` (`src/generators/subtasks.py`, lines 178–180): the
assignees of all input tasks that have one. -/
def possible_creators (tasks : List TaskIn) : List String :=
  tasks.filterMap (·.assignee_id)

/-- Python's `random.choice`: an arbitrary element of a non-empty sequence
(selected here by the index draw `k`), and an `IndexError` on an empty
sequence. -/
def random_choice {α : Type} (l : List α) (k : ℕ) : Except String α :=
  match l with
  | [] => Except.error "Cannot choose from an empty sequence"
  | x :: xs => Except.ok ((x :: xs).getD (k % (x :: xs).length) x)

/-- The random draws consumed for one subtask
(`src/generators/subtasks.py`, lines 198–234). -/
structure SubDraws where
  createdFrac : ℚ
  inheritRoll : Bool
  dueTri : ℤ
  dueCoin : Bool
  doneRoll : Bool
  doneFrac : ℚ
  delegateRoll : Bool
  creatorPick : ℕ

/-- The fields of one generated subtask row. -/
structure SubRow where
  created_at : ℚ
  due_date : Option ℤ
  completed_at : Option ℚ
  created_by : String
  assignee_id : Option String
deriving DecidableEq

/-- The per-subtask body of `generate_subtasks`
(`src/generators/subtasks.py`, lines 198–234): `created_at` sampled between
parent creation and parent completion (or `now`); the due date inherits the
parent's with probability 0.8 when present, else
`business_due_date_from_created(created, 1, 30)`; completion (90% under a
completed parent, 30% otherwise) draws
`completed_after_created(created, due, 1, 30)`; the creator is the parent's
assignee, or `random.choice(possible_creators)` — an `IndexError` when that
pool is empty; the assignee inherits the parent's but is cleared with
probability 0.15. -/
def genSubtaskRow (creators : List String) (now : ℚ) (parent : TaskIn)
    (d : SubDraws) : Except String SubRow :=
  let created_at :=
    random_datetime_between parent.created_at (parent.completed_at.getD now) d.createdFrac
  let due_date : Option ℤ :=
    match parent.due_date with
    | some pd =>
        if d.inheritRoll then some pd
        else some (business_due_date_from_created created_at 1 30 d.dueTri d.dueCoin)
    | none => some (business_due_date_from_created created_at 1 30 d.dueTri d.dueCoin)
  let completed_at : Option ℚ :=
    if d.doneRoll then some (completed_after_created created_at due_date 1 30 d.doneFrac)
    else none
  match parent.assignee_id with
  | some a =>
      Except.ok
        { created_at := created_at, due_date := due_date,
          completed_at := completed_at, created_by := a,
          assignee_id := if d.delegateRoll then none else some a }
  | none =>
      match random_choice creators d.creatorPick with
      | Except.error e => Except.error e
      | Except.ok cb =>
          Except.ok
            { created_at := created_at, due_date := due_date,
              completed_at := completed_at, created_by := cb,
              assignee_id := none }

/-- The inner `for i in range(count)` loop of `generate_subtasks`: one draw
vector per spawned subtask; the first `IndexError` aborts the run. -/
def genSubtasksForParent (creators : List String) (now : ℚ) (parent : TaskIn) :
    List SubDraws → Except String (List SubRow)
  | [] => Except.ok []
  | d :: ds =>
    match genSubtaskRow creators now parent d with
    | Except.error e => Except.error e
    | Except.ok r =>
      match genSubtasksForParent creators now parent ds with
      | Except.error e => Except.error e
      | Except.ok rs => Except.ok (r :: rs)

/-- The outer `for parent in parent_tasks` loop of `generate_subtasks`. -/
def genSubtasksAll (creators : List String) (now : ℚ) :
    List (TaskIn × List SubDraws) → Except String (List SubRow)
  | [] => Except.ok []
  | (p, ds) :: rest =>
    match genSubtasksForParent creators now p ds with
    | Except.error e => Except.error e
    | Except.ok rs =>
      match genSubtasksAll creators now rest with
      | Except.error e => Except.error e
      | Except.ok more => Except.ok (rs ++ more)

/-- `generate_subtasks` (`src/generators/subtasks.py`): empty input returns
no rows; otherwise each sampled parent (an element of `tasks`, per
`random.sample`) spawns one row per draw vector.  An uncaught `IndexError`
propagates out. -/
def generate_subtasks (tasks : List TaskIn)
    (parents : List (TaskIn × List SubDraws)) (now : ℚ) :
    Except String (List SubRow) :=
  if tasks.isEmpty then Except.ok []
  else genSubtasksAll (possible_creators tasks) now parents

/-- The rows reaching `bulk_insert`, which runs only after the whole loop
has succeeded: a failed call inserts nothing. -/
def inserted_subtask_rows (tasks : List TaskIn)
    (parents : List (TaskIn × List SubDraws)) (now : ℚ) : List SubRow :=
  match generate_subtasks tasks parents now with
  | Except.ok rows => rows
  | Except.error _ => []

/-- A concrete parent task with an assignee. -/
def sampleParent : TaskIn :=
  { id := "t1", created_at := 0, due_date := none, completed_at := none,
    assignee_id := some "u1" }

/-- A concrete task with no assignee. -/
def orphanTask : TaskIn :=
  { id := "t2", created_at := 0, due_date := none, completed_at := none,
    assignee_id := none }

/-- A concrete subtask draw vector. -/
def sampleSubDraws : SubDraws :=
  { createdFrac := 0, inheritRoll := false, dueTri := 7, dueCoin := false,
    doneRoll := false, doneFrac := 1/2, delegateRoll := false, creatorPick := 0 }

/-- The subtask row `genSubtaskRow` produces from `sampleParent` and
`sampleSubDraws` at `now` = epoch day 1. -/
def sampleSubRow : SubRow :=
  { created_at := 86400, due_date := some 8, completed_at := none,
    created_by := "u1", assignee_id := some "u1" }

/-- The subtask row `genSubtaskRow` produces from `orphanTask` (no
assignee) with creator pool ["u1"] and `sampleSubDraws` at `now` = epoch
day 1. -/
def orphanSubRow : SubRow :=
  { created_at := 86400, due_date := some 8, completed_at := none,
    created_by := "u1", assignee_id := none }

theorem dateOf_eval {t : ℚ} {n : ℤ} (h : t / 86400 = (n : ℚ)) : dateOf t = n := by
  unfold dateOf
  rw [h, Int.floor_intCast]

theorem weekday_to_business_day_lt_five (coin : Bool) (d : ℤ) :
    weekday (to_business_day coin d) < 5 ∧ 0 ≤ weekday (to_business_day coin d) := by
  by_cases h1 : weekday d < 5
  · unfold to_business_day
    rw [if_pos h1]
    refine ⟨h1, ?_⟩
    unfold weekday
    omega
  · by_cases h2 : weekday d = 5
    · unfold to_business_day
      rw [if_neg h1, if_pos h2]
      unfold weekday at h2 ⊢
      cases coin <;> simp <;> omega
    · unfold to_business_day
      rw [if_neg h1, if_neg h2]
      unfold weekday at h1 h2 ⊢
      omega

theorem business_due_date_is_snapped (created : ℚ) (min_days max_days tri : ℤ)
    (coin : Bool) :
    ∃ d : ℤ, business_due_date_from_created created min_days max_days tri coin =
      to_business_day coin d := by
  unfold business_due_date_from_created
  split
  · exact ⟨dateOf created, rfl⟩
  · exact ⟨dateOf created + max min_days (min max_days tri), rfl⟩

theorem rdb_ge_start (start e frac : ℚ) (h1 : frac ≤ 1) :
    start ≤ random_datetime_between start e frac := by
  unfold random_datetime_between
  split
  · exact le_refl _
  · rename_i h
    have he : 0 ≤ e - start := by linarith [lt_of_not_le h]
    nlinarith

theorem rdb_le_end (start e frac : ℚ) (h0 : 0 ≤ frac) (hse : start ≤ e) :
    random_datetime_between start e frac ≤ e := by
  unfold random_datetime_between
  split
  · exact hse
  · rename_i h
    nlinarith [mul_nonneg (sub_nonneg.mpr hse) h0]

theorem rdb_strict (start e frac : ℚ) (hse : start < e) (h0 : 0 < frac)
    (h1 : frac < 1) :
    start < random_datetime_between start e frac ∧
      random_datetime_between start e frac < e := by
  unfold random_datetime_between
  rw [if_neg (not_le.mpr hse)]
  constructor
  · nlinarith
  · nlinarith

theorem rdb_degenerate (start e frac : ℚ) (h : e ≤ start) :
    random_datetime_between start e frac = start := by
  unfold random_datetime_between
  rw [if_pos h]

/-- C1: the code evaluated at the failing input.  With
`created_at = 1970-01-01T00:00Z` (epoch second 0), a due date the very next
day, the default `min_hours = 1`, `max_days = 60`, and a Beta draw of 0.9,
`completed_after_created` returns epoch second −336960, i.e. a completion
timestamp about 3.9 days BEFORE creation — the due-date branch lowers the
window's start to `due − 7 days`, which falls below `created_at`. -/
theorem C1_completed_before_created_eval :
    completed_after_created 0 (some 1) 1 60 (9 / 10) = -336960 ∧
      completed_after_created 0 (some 1) 1 60 (9 / 10) < 0 := by
  constructor <;> norm_num [completed_after_created, random_datetime_between]

/-- C6: `business_due_date_from_created` never lands on a Saturday
(weekday 5) or Sunday (weekday 6); `_to_business_day` maps a raw Saturday to
the preceding Friday when the 0.6-probability coin fires and to the
following Monday otherwise, maps a raw Sunday to the following Monday, and
leaves a raw weekday unchanged; and when `max_days ≤ 0` the creation date
itself is snapped the same way. -/
theorem C6_business_due_date_weekday :
    (∀ (created : ℚ) (min_days max_days tri : ℤ) (coin : Bool),
        weekday (business_due_date_from_created created min_days max_days tri coin) ≠ 5 ∧
        weekday (business_due_date_from_created created min_days max_days tri coin) ≠ 6) ∧
    (∀ (d : ℤ) (coin : Bool),
        (weekday d = 5 → to_business_day coin d = if coin then d - 1 else d + 2) ∧
        (weekday d = 6 → to_business_day coin d = d + 1) ∧
        (weekday d < 5 → to_business_day coin d = d)) ∧
    (∀ (created : ℚ) (min_days max_days tri : ℤ) (coin : Bool), max_days ≤ 0 →
        business_due_date_from_created created min_days max_days tri coin =
          to_business_day coin (dateOf created)) := by
  refine ⟨?_, ?_, ?_⟩
  · intro created min_days max_days tri coin
    obtain ⟨d, hd⟩ := business_due_date_is_snapped created min_days max_days tri coin
    rw [hd]
    have h := weekday_to_business_day_lt_five coin d
    exact ⟨by omega, by omega⟩
  · intro d coin
    refine ⟨?_, ?_, ?_⟩
    · intro h5
      have hlt : ¬ weekday d < 5 := by unfold weekday at *; omega
      simp [to_business_day, hlt, h5]
    · intro h6
      have hlt : ¬ weekday d < 5 := by unfold weekday at *; omega
      have hne : ¬ weekday d = 5 := by omega
      simp [to_business_day, hlt, hne]
    · intro hlt
      simp [to_business_day, hlt]
  · intro created min_days max_days tri coin hle
    unfold business_due_date_from_created
    simp [hle]

/-- C6 witness: the snapping facts at concrete dates.  Epoch day 2
(1970-01-03) was a Saturday, day 3 a Sunday, day 4 a Monday; and a
degenerate `max_days = 0` call snaps the creation date. -/
theorem C6_business_due_date_weekday_witness :
    (weekday 2 = 5 ∧ to_business_day true 2 = 1) ∧
    (weekday 3 = 6 ∧ to_business_day true 3 = 4) ∧
    (weekday 4 < 5 ∧ to_business_day true 4 = 4) ∧
    business_due_date_from_created 0 1 0 5 true = to_business_day true (dateOf 0) := by
  refine ⟨⟨by decide, ?_⟩, ⟨by decide, ?_⟩, ⟨by decide, ?_⟩, ?_⟩
  · have h := (C6_business_due_date_weekday.2.1 2 true).1 (by decide)
    simpa using h
  · exact (C6_business_due_date_weekday.2.1 3 true).2.1 (by decide)
  · exact (C6_business_due_date_weekday.2.1 4 true).2.2 (by decide)
  · exact C6_business_due_date_weekday.2.2 0 1 0 5 true (by decide)

/-- C3: the code evaluated at the failing input.  A sprint-project task
created on epoch day 5, incomplete, with due date epoch day 15, at
`now` = epoch day 10: the injection roll fires, the engine replaces the
still-future due date by `now.date()` (day 10) — and the resulting task is
NOT overdue, because `is_overdue` requires the due date to be strictly
before `now`'s date. -/
theorem C3_overdue_injection_not_overdue :
    (genTask "sprint" 0 864000 c3Draws).due_date = some 10 ∧
    (genTask "sprint" 0 864000 c3Draws).completed_at = none ∧
    dateOf 864000 = 10 ∧
    is_overdue (genTask "sprint" 0 864000 c3Draws).due_date
      (genTask "sprint" 0 864000 c3Draws).completed_at 864000 = false := by
  have hc : random_datetime_between 0 864000 ((1 : ℚ)/2) = 432000 := by
    unfold random_datetime_between; norm_num
  have hd5 : dateOf 432000 = 5 := dateOf_eval (by norm_num)
  have hd10 : dateOf 864000 = 10 := dateOf_eval (by norm_num)
  have hb : business_due_date_from_created 432000 3 75 10 false = 15 := by
    unfold business_due_date_from_created
    rw [if_neg (by decide)]
    show to_business_day false (dateOf 432000 + max 3 (min 75 10)) = 15
    rw [hd5]; decide
  have hg : genTask "sprint" 0 864000 c3Draws =
      { created_at := 432000, due_date := some 10, completed_at := none,
        last_activity_at := 432000 } := by
    unfold genTask c3Draws
    simp only [hc, hb, hd10]
    norm_num
  refine ⟨?_, ?_, hd10, ?_⟩
  · rw [hg]
  · rw [hg]
  · rw [hg]
    simp [is_overdue, hd10]

theorem commentTimes_cons (start endT f : ℚ) (fs : List ℚ) :
    commentTimes start endT (f :: fs) =
      random_datetime_between start endT f ::
        commentTimes (random_datetime_between start endT f) endT fs := by
  rfl

theorem lastCommentTime_cons (start endT f : ℚ) (fs : List ℚ) :
    lastCommentTime start endT (f :: fs) =
      lastCommentTime (random_datetime_between start endT f) endT fs := by
  unfold lastCommentTime
  rw [commentTimes_cons]
  exact List.getLastD_cons _ _ _

theorem lastCommentTime_ge_start (endT : ℚ) (fracs : List ℚ) :
    ∀ start : ℚ, (∀ f ∈ fracs, f ≤ 1) → start ≤ lastCommentTime start endT fracs := by
  induction fracs with
  | nil => intro start _; exact le_of_eq rfl
  | cons f fs ih =>
    intro start hf
    rw [lastCommentTime_cons]
    exact le_trans (rdb_ge_start start endT f (hf f (by simp)))
      (ih _ (fun g hg => hf g (by simp [hg])))

theorem commentTimes_le_last (endT : ℚ) (fracs : List ℚ) :
    ∀ start : ℚ, (∀ f ∈ fracs, f ≤ 1) →
      ∀ ts ∈ commentTimes start endT fracs, ts ≤ lastCommentTime start endT fracs := by
  induction fracs with
  | nil => intro start _ ts hts; simp [commentTimes] at hts
  | cons f fs ih =>
    intro start hf ts hts
    rw [commentTimes_cons] at hts
    rw [lastCommentTime_cons]
    have hfs : ∀ g ∈ fs, g ≤ 1 := fun g hg => hf g (by simp [hg])
    rcases List.mem_cons.mp hts with rfl | hts
    · exact lastCommentTime_ge_start endT fs _ hfs
    · exact ih _ hfs ts hts

theorem commentTimes_ge_start (endT : ℚ) (fracs : List ℚ) :
    ∀ start : ℚ, (∀ f ∈ fracs, f ≤ 1) →
      ∀ ts ∈ commentTimes start endT fracs, start ≤ ts := by
  induction fracs with
  | nil => intro start _ ts hts; simp [commentTimes] at hts
  | cons f fs ih =>
    intro start hf ts hts
    rw [commentTimes_cons] at hts
    have h1 : start ≤ random_datetime_between start endT f :=
      rdb_ge_start start endT f (hf f (by simp))
    rcases List.mem_cons.mp hts with rfl | hts
    · exact h1
    · exact le_trans h1 (ih _ (fun g hg => hf g (by simp [hg])) ts hts)

theorem genTask_created (ptype : String) (pc now : ℚ) (d : TaskDraws) :
    (genTask ptype pc now d).created_at = random_datetime_between pc now d.createdFrac := by
  rfl

theorem genTask_last_activity (ptype : String) (pc now : ℚ) (d : TaskDraws) :
    (genTask ptype pc now d).last_activity_at =
      (genTask ptype pc now d).completed_at.getD (genTask ptype pc now d).created_at := by
  unfold genTask
  by_cases hr : d.completedRoll <;> simp [hr]

/-- C4 counterexample: a task the generator can produce (sprint project
created at epoch 0, `now` = epoch day 10, the draw vector `c4Draws`) whose
completion timestamp (epoch second 267840) precedes its creation timestamp
(epoch second 432000); since it receives no comments, its
`last_activity_at` equals the completion time and is strictly BELOW
`created_at`, refuting "for every generated task,
last_activity_at ≥ created_at". -/
theorem C4_last_activity_counterexample :
    (genTask "sprint" 0 864000 c4Draws).completed_at = some 267840 ∧
    (genTask "sprint" 0 864000 c4Draws).last_activity_at <
      (genTask "sprint" 0 864000 c4Draws).created_at := by
  have hc : random_datetime_between 0 864000 ((1 : ℚ)/2) = 432000 := by
    unfold random_datetime_between; norm_num
  have hd5 : dateOf 432000 = 5 := dateOf_eval (by norm_num)
  have hb : business_due_date_from_created 432000 3 75 3 false = 8 := by
    unfold business_due_date_from_created
    rw [if_neg (by decide)]
    show to_business_day false (dateOf 432000 + max 3 (min 75 3)) = 8
    rw [hd5]; decide
  have hcc : completed_after_created 432000 (some 8) 1 60 ((9 : ℚ)/10) = 267840 := by
    unfold completed_after_created random_datetime_between
    norm_num [min_def]
  have hg : genTask "sprint" 0 864000 c4Draws =
      { created_at := 432000, due_date := some 8, completed_at := some 267840,
        last_activity_at := 267840 } := by
    unfold genTask c4Draws
    simp only [hc, hb, hcc]
    norm_num [hcc]
  rw [hg]
  exact ⟨rfl, by norm_num⟩

/-- C4 (amended): for every generated task whose completion timestamp, when
present, is at least its creation timestamp (which `completed_after_created`
can violate — see the counterexample), `last_activity_at ≥ created_at`;
and for every comment sequence with Beta draws in [0, 1], the value
written back by CommentThreader's `UPDATE` —
`MAX(last_activity_at, last_comment_time)` — is at least every comment
timestamp of the task and equals the maximum of the task's creation time,
its completion time (when present) and its latest comment time. -/
theorem C4_last_activity_amended (ptype : String) (pc now endT : ℚ)
    (d : TaskDraws) (fracs : List ℚ)
    (hcomp : ∀ c, (genTask ptype pc now d).completed_at = some c →
      (genTask ptype pc now d).created_at ≤ c)
    (hf : ∀ f ∈ fracs, 0 ≤ f ∧ f ≤ 1) :
    (genTask ptype pc now d).created_at ≤ (genTask ptype pc now d).last_activity_at ∧
    (∀ ts ∈ commentTimes (genTask ptype pc now d).created_at endT fracs,
      ts ≤ updated_last_activity (genTask ptype pc now d).last_activity_at
        (lastCommentTime (genTask ptype pc now d).created_at endT fracs)) ∧
    updated_last_activity (genTask ptype pc now d).last_activity_at
        (lastCommentTime (genTask ptype pc now d).created_at endT fracs) =
      max (max (genTask ptype pc now d).created_at
          ((genTask ptype pc now d).completed_at.getD (genTask ptype pc now d).created_at))
        (lastCommentTime (genTask ptype pc now d).created_at endT fracs) := by
  have hf1 : ∀ f ∈ fracs, f ≤ 1 := fun f hfm => (hf f hfm).2
  have hla : (genTask ptype pc now d).created_at ≤ (genTask ptype pc now d).last_activity_at := by
    rw [genTask_last_activity]
    cases hc : (genTask ptype pc now d).completed_at with
    | none => simp
    | some c => simpa using hcomp c hc
  refine ⟨hla, ?_, ?_⟩
  · intro ts hts
    exact le_trans
      (commentTimes_le_last endT fracs _ hf1 ts hts)
      (le_max_right _ _)
  · have hlc : (genTask ptype pc now d).created_at ≤
        lastCommentTime (genTask ptype pc now d).created_at endT fracs :=
      lastCommentTime_ge_start endT fracs _ hf1
    rw [genTask_last_activity]
    cases hc : (genTask ptype pc now d).completed_at with
    | none =>
      simp only [Option.getD_none]
      unfold updated_last_activity
      rw [max_self]
    | some c =>
      simp only [Option.getD_some]
      unfold updated_last_activity
      rw [max_comm ((genTask ptype pc now d).created_at) c, max_assoc, max_eq_right hlc]

/-- C4 witness: the amended statement instantiated at an incomplete sprint
task with a single comment draw of 1/2. -/
theorem C4_last_activity_amended_witness :
    (genTask "sprint" 0 864000 c3Draws).created_at ≤
      (genTask "sprint" 0 864000 c3Draws).last_activity_at := by
  have h := C4_last_activity_amended "sprint" 0 864000 1000000 c3Draws [1/2]
    (by intro c hc; simp [genTask, c3Draws] at hc)
    (by intro f hfm; rcases List.mem_singleton.mp hfm with rfl; norm_num)
  exact h.1

/-- C5 counterexample: the generator can produce a task (sprint project,
draw vector `c4Draws`) with `created_at` = 432000 and `completed_at` =
267840 < `created_at`.  Generating two comments for it (any Beta draws)
yields the timestamps [432000, 432000]: NOT strictly increasing, and both
above the window's end `completed_at`. -/
theorem C5_comment_times_counterexample :
    (genTask "sprint" 0 864000 c4Draws).created_at = 432000 ∧
    (genTask "sprint" 0 864000 c4Draws).completed_at = some 267840 ∧
    commentTimes 432000 267840 [1/2, 1/2] = [432000, 432000] ∧
    ¬ List.Chain' (fun a b : ℚ => a < b) (commentTimes 432000 267840 [1/2, 1/2]) ∧
    ¬ (∀ ts ∈ commentTimes 432000 267840 [1/2, 1/2], ts ≤ 267840) := by
  have hc : random_datetime_between 0 864000 ((1 : ℚ)/2) = 432000 := by
    unfold random_datetime_between; norm_num
  have hd5 : dateOf 432000 = 5 := dateOf_eval (by norm_num)
  have hb : business_due_date_from_created 432000 3 75 3 false = 8 := by
    unfold business_due_date_from_created
    rw [if_neg (by decide)]
    show to_business_day false (dateOf 432000 + max 3 (min 75 3)) = 8
    rw [hd5]; decide
  have hcc : completed_after_created 432000 (some 8) 1 60 ((9 : ℚ)/10) = 267840 := by
    unfold completed_after_created random_datetime_between
    norm_num [min_def]
  have hg : genTask "sprint" 0 864000 c4Draws =
      { created_at := 432000, due_date := some 8, completed_at := some 267840,
        last_activity_at := 267840 } := by
    unfold genTask c4Draws
    simp only [hc, hb, hcc]
    norm_num [hcc]
  have hdeg : random_datetime_between 432000 267840 ((1 : ℚ)/2) = 432000 := by
    unfold random_datetime_between
    rw [if_pos (by norm_num)]
  have hct : commentTimes 432000 267840 [(1 : ℚ)/2, 1/2] = [432000, 432000] := by
    rw [commentTimes_cons, hdeg, commentTimes_cons, hdeg]
    rfl
  refine ⟨by rw [hg], by rw [hg], hct, ?_, ?_⟩
  · rw [hct]
    simp only [List.chain'_cons, List.chain'_singleton, and_true]
    exact lt_irrefl _
  · rw [hct]
    intro hall
    have := hall 432000 (by simp)
    norm_num at this

/-- C5 (amended): whenever the comment window is non-degenerate — the
task's `completed_at` (or `now`) is strictly after its `created_at`, which
holds except when `completed_after_created` misfires as in the
counterexample — and every Beta draw lies strictly inside (0, 1), the
generated comment timestamps are strictly increasing (each strictly after
the previous, the first strictly after `created_at`) and every timestamp
lies strictly between `created_at` and the window's end. -/
theorem C5_comment_times_amended : ∀ (fracs : List ℚ) (start endT : ℚ),
    start < endT → (∀ f ∈ fracs, 0 < f ∧ f < 1) →
    List.Chain (fun a b : ℚ => a < b) start (commentTimes start endT fracs) ∧
    ∀ ts ∈ commentTimes start endT fracs, start < ts ∧ ts < endT := by
  intro fracs
  induction fracs with
  | nil =>
    intro start endT _ _
    exact ⟨List.Chain.nil, by simp [commentTimes]⟩
  | cons f fs ih =>
    intro start endT hse hf
    have hfb := hf f (by simp)
    have hstrict := rdb_strict start endT f hse hfb.1 hfb.2
    rw [commentTimes_cons]
    have ihr := ih (random_datetime_between start endT f) endT hstrict.2
      (fun g hg => hf g (by simp [hg]))
    refine ⟨List.Chain.cons hstrict.1 ihr.1, ?_⟩
    intro ts hts
    rcases List.mem_cons.mp hts with rfl | hts
    · exact hstrict
    · have h2 := ihr.2 ts hts
      exact ⟨lt_trans hstrict.1 h2.1, h2.2⟩

/-- C5 witness: one comment with Beta draw 1/2 in the window (0, 86400). -/
theorem C5_comment_times_amended_witness :
    List.Chain (fun a b : ℚ => a < b) 0 (commentTimes 0 86400 [1/2]) ∧
    ∀ ts ∈ commentTimes 0 86400 [1/2], 0 < ts ∧ ts < 86400 :=
  C5_comment_times_amended [1/2] 0 86400 (by norm_num)
    (by intro f hfm; rcases List.mem_singleton.mp hfm with rfl; norm_num)

theorem genSubtaskRow_created (creators : List String) (now : ℚ) (parent : TaskIn)
    (d : SubDraws) (row : SubRow)
    (h : genSubtaskRow creators now parent d = Except.ok row) :
    row.created_at =
      random_datetime_between parent.created_at (parent.completed_at.getD now)
        d.createdFrac := by
  unfold genSubtaskRow at h
  cases hpa : parent.assignee_id with
  | some a =>
    rw [hpa] at h
    simp only [Except.ok.injEq] at h
    rw [← h]
  | none =>
    rw [hpa] at h
    cases hrc : random_choice creators d.creatorPick with
    | error e =>
      rw [hrc] at h
      simp at h
    | ok cb =>
      rw [hrc] at h
      simp only [Except.ok.injEq] at h
      rw [← h]

/-- C2: causal ordering of `created_at` along the parent chain.
`random_datetime_between` returns its start exactly on a degenerate window
(`start ≥ end`); a team is created `365 * uniform(0.5, 9.0)` days at or
after the organization's founding; a project 30–900 days at or after its
team's creation; a task's creation is sampled at or after its project's
creation; a subtask's at or after its parent task's; and every comment
timestamp is at or after its task's creation.  The fraction bounds are
those of Python's `random.betavariate` (values in [0, 1]). -/
theorem C2_causal_ordering :
    (∀ start e frac : ℚ, e ≤ start → random_datetime_between start e frac = start) ∧
    (∀ org u : ℚ, 0 ≤ u → org ≤ team_created_at org u) ∧
    (∀ (tc : ℚ) (days : ℤ), 0 ≤ days → tc ≤ project_created_at tc days) ∧
    (∀ (ptype : String) (pc now : ℚ) (d : TaskDraws), d.createdFrac ≤ 1 →
      pc ≤ (genTask ptype pc now d).created_at) ∧
    (∀ (creators : List String) (now : ℚ) (parent : TaskIn) (d : SubDraws)
        (row : SubRow),
      genSubtaskRow creators now parent d = Except.ok row → d.createdFrac ≤ 1 →
      parent.created_at ≤ row.created_at) ∧
    (∀ (start endT : ℚ) (fracs : List ℚ), (∀ f ∈ fracs, f ≤ 1) →
      ∀ ts ∈ commentTimes start endT fracs, start ≤ ts) := by
  refine ⟨?_, ?_, ?_, ?_, ?_, ?_⟩
  · exact fun start e frac h => rdb_degenerate start e frac h
  · intro org u hu
    unfold team_created_at
    nlinarith
  · intro tc days hd
    unfold project_created_at
    have : (0 : ℚ) ≤ (days : ℚ) := by exact_mod_cast hd
    nlinarith
  · intro ptype pc now d hfr
    rw [genTask_created]
    exact rdb_ge_start _ _ _ hfr
  · intro creators now parent d row h hfr
    rw [genSubtaskRow_created creators now parent d row h]
    exact rdb_ge_start _ _ _ hfr
  · exact fun start endT fracs hf => commentTimes_ge_start endT fracs start hf

/-- C2 witness: each causal-ordering part at a concrete input. -/
theorem C2_causal_ordering_witness :
    random_datetime_between 5 3 (1/2) = 5 ∧
    (0 : ℚ) ≤ team_created_at 0 2 ∧
    (0 : ℚ) ≤ project_created_at 0 30 ∧
    (0 : ℚ) ≤ (genTask "ops" 0 86400 c3Draws).created_at ∧
    sampleParent.created_at ≤ sampleSubRow.created_at ∧
    ∀ ts ∈ commentTimes 0 86400 [(1 : ℚ)/2], (0 : ℚ) ≤ ts := by
  have hrow : genSubtaskRow ["u1"] 86400 sampleParent sampleSubDraws =
      Except.ok sampleSubRow := by
    have hc : random_datetime_between 0 86400 (0 : ℚ) = 86400 := by
      unfold random_datetime_between; norm_num
    have hd1 : dateOf 86400 = 1 := dateOf_eval (by norm_num)
    have hb : business_due_date_from_created 86400 1 30 7 false = 8 := by
      unfold business_due_date_from_created
      rw [if_neg (by decide)]
      show to_business_day false (dateOf 86400 + max 1 (min 30 7)) = 8
      rw [hd1]; decide
    unfold genSubtaskRow sampleParent sampleSubDraws
    simp only [hc, hb]
    norm_num [sampleSubRow, hc, hb]
  refine ⟨?_, ?_, ?_, ?_, ?_, ?_⟩
  · exact C2_causal_ordering.1 5 3 (1/2) (by norm_num)
  · exact C2_causal_ordering.2.1 0 2 (by norm_num)
  · exact C2_causal_ordering.2.2.1 0 30 (by norm_num)
  · exact C2_causal_ordering.2.2.2.1 "ops" 0 86400 c3Draws (by norm_num [c3Draws])
  · exact C2_causal_ordering.2.2.2.2.1 ["u1"] 86400 sampleParent sampleSubDraws
      sampleSubRow hrow (by norm_num [sampleSubDraws])
  · exact C2_causal_ordering.2.2.2.2.2 0 86400 [(1 : ℚ)/2]
      (by intro f hfm; rcases List.mem_singleton.mp hfm with rfl; norm_num)

theorem random_choice_mem {α : Type} (l : List α) (k : ℕ) (v : α)
    (h : random_choice l k = Except.ok v) : v ∈ l := by
  cases l with
  | nil => exact absurd h (by simp [random_choice])
  | cons x xs =>
    simp only [random_choice, Except.ok.injEq] at h
    subst h
    have hlt : k % (x :: xs).length < (x :: xs).length := Nat.mod_lt _ (by simp)
    rw [List.getD_eq_getElem?_getD, List.getElem?_eq_getElem hlt]
    exact List.getElem_mem hlt

theorem possible_creators_eq_nil (tasks : List TaskIn)
    (h : ∀ t ∈ tasks, t.assignee_id = none) : possible_creators tasks = [] := by
  unfold possible_creators
  rw [List.filterMap_eq_nil_iff]
  exact h

theorem genSubtaskRow_err (now : ℚ) (parent : TaskIn) (d : SubDraws)
    (hpa : parent.assignee_id = none) :
    genSubtaskRow [] now parent d =
      Except.error "Cannot choose from an empty sequence" := by
  unfold genSubtaskRow
  rw [hpa]
  rfl

theorem genSubtasksForParent_err (now : ℚ) (parent : TaskIn) (d : SubDraws)
    (ds : List SubDraws) (hpa : parent.assignee_id = none) :
    genSubtasksForParent [] now parent (d :: ds) =
      Except.error "Cannot choose from an empty sequence" := by
  unfold genSubtasksForParent
  rw [genSubtaskRow_err now parent d hpa]

theorem genSubtasksAll_err (now : ℚ) (p : TaskIn) (d : SubDraws)
    (ds : List SubDraws) (rest : List (TaskIn × List SubDraws))
    (hpa : p.assignee_id = none) :
    genSubtasksAll [] now ((p, d :: ds) :: rest) =
      Except.error "Cannot choose from an empty sequence" := by
  unfold genSubtasksAll
  rw [genSubtasksForParent_err now p d ds hpa]

/-- C9: each subtask's creator is the parent task's assignee when present,
else a user drawn from the pool of assignees of any input task; and when
the input task list is non-empty but no task in it has an assignee, the
run fails with `random.choice`'s empty-selection `IndexError` and no
subtask rows are inserted. -/
theorem C9_subtask_creator :
    (∀ (creators : List String) (now : ℚ) (parent : TaskIn) (d : SubDraws)
        (a : String), parent.assignee_id = some a →
      ∃ row, genSubtaskRow creators now parent d = Except.ok row ∧
        row.created_by = a) ∧
    (∀ (tasks : List TaskIn) (now : ℚ) (parent : TaskIn) (d : SubDraws)
        (row : SubRow), parent.assignee_id = none →
      genSubtaskRow (possible_creators tasks) now parent d = Except.ok row →
      row.created_by ∈ possible_creators tasks) ∧
    (∀ (tasks : List TaskIn) (now : ℚ) (p : TaskIn) (d : SubDraws)
        (ds : List SubDraws) (rest : List (TaskIn × List SubDraws)),
      tasks ≠ [] → (∀ t ∈ tasks, t.assignee_id = none) → p ∈ tasks →
      generate_subtasks tasks ((p, d :: ds) :: rest) now =
        Except.error "Cannot choose from an empty sequence" ∧
      inserted_subtask_rows tasks ((p, d :: ds) :: rest) now = []) := by
  refine ⟨?_, ?_, ?_⟩
  · intro creators now parent d a hpa
    unfold genSubtaskRow
    rw [hpa]
    exact ⟨_, rfl, rfl⟩
  · intro tasks now parent d row hpa h
    unfold genSubtaskRow at h
    rw [hpa] at h
    cases hrc : random_choice (possible_creators tasks) d.creatorPick with
    | error e =>
      rw [hrc] at h
      simp at h
    | ok cb =>
      rw [hrc] at h
      simp only [Except.ok.injEq] at h
      have hmem := random_choice_mem _ _ _ hrc
      rw [← h]
      exact hmem
  · intro tasks now p d ds rest htasks hall hp
    have hpc : possible_creators tasks = [] := possible_creators_eq_nil tasks hall
    have hpa : p.assignee_id = none := hall p hp
    have hne : ¬ (tasks.isEmpty = true) := by
      simp only [List.isEmpty_iff]
      exact htasks
    have herr : generate_subtasks tasks ((p, d :: ds) :: rest) now =
        Except.error "Cannot choose from an empty sequence" := by
      unfold generate_subtasks
      rw [if_neg hne, hpc]
      exact genSubtasksAll_err now p d ds rest hpa
    refine ⟨herr, ?_⟩
    unfold inserted_subtask_rows
    rw [herr]

/-- C9 witness: the three parts at concrete inputs — a parent with
assignee "u1" makes "u1" the creator; an unassigned parent draws its
creator from the pool of task assignees; a run over an all-unassigned,
non-empty task list fails with the empty-selection error and inserts
nothing. -/
theorem C9_subtask_creator_witness :
    (∃ row, genSubtaskRow [] 86400 sampleParent sampleSubDraws = Except.ok row ∧
      row.created_by = "u1") ∧
    orphanSubRow.created_by ∈ possible_creators [sampleParent] ∧
    generate_subtasks [orphanTask] [(orphanTask, [sampleSubDraws])] 86400 =
      Except.error "Cannot choose from an empty sequence" ∧
    inserted_subtask_rows [orphanTask] [(orphanTask, [sampleSubDraws])] 86400 = [] := by
  have hrow : genSubtaskRow (possible_creators [sampleParent]) 86400 orphanTask
      sampleSubDraws = Except.ok orphanSubRow := by
    have hc : random_datetime_between 0 86400 (0 : ℚ) = 86400 := by
      unfold random_datetime_between; norm_num
    have hd1 : dateOf 86400 = 1 := dateOf_eval (by norm_num)
    have hb : business_due_date_from_created 86400 1 30 7 false = 8 := by
      unfold business_due_date_from_created
      rw [if_neg (by decide)]
      show to_business_day false (dateOf 86400 + max 1 (min 30 7)) = 8
      rw [hd1]; decide
    have hpool : possible_creators [sampleParent] = ["u1"] := rfl
    rw [hpool]
    unfold genSubtaskRow orphanTask sampleSubDraws
    simp only [hc, hb]
    norm_num [random_choice, orphanSubRow, hc, hb]
  refine ⟨?_, ?_, ?_⟩
  · exact C9_subtask_creator.1 [] 86400 sampleParent sampleSubDraws "u1" rfl
  · exact C9_subtask_creator.2.1 [sampleParent] 86400 orphanTask sampleSubDraws
      orphanSubRow rfl hrow
  · exact C9_subtask_creator.2.2 [orphanTask] 86400 orphanTask sampleSubDraws []
      [] (by simp) (by intro t ht; rcases List.mem_singleton.mp ht with rfl; rfl)
      (by simp)

theorem sampleStep_mem_of_mem (chosen : List String) (pick x : String)
    (h : x ∈ chosen) : x ∈ sampleStep chosen pick := by
  unfold sampleStep
  split
  · exact h
  · exact List.mem_append_left _ h

theorem sampleStep_nodup (chosen : List String) (pick : String)
    (h : chosen.Nodup) : (sampleStep chosen pick).Nodup := by
  unfold sampleStep
  split
  · exact h
  · rename_i hn
    simp [List.nodup_append, h, hn]

theorem chosenAfter_succ (options : List String) (target : ℕ) (s : ℕ → String)
    (n : ℕ) :
    chosenAfter options target s (n + 1) =
      if sampleDone options target (chosenAfter options target s n) then
        chosenAfter options target s n
      else sampleStep (chosenAfter options target s n) (s n) := rfl

theorem chosenAfter_nodup (options : List String) (target : ℕ) (s : ℕ → String) :
    ∀ n, (chosenAfter options target s n).Nodup := by
  intro n
  induction n with
  | zero => exact List.nodup_nil
  | succ m ih =>
    unfold chosenAfter
    split
    · exact ih
    · exact sampleStep_nodup _ _ ih

theorem chosenAfter_subset (options : List String) (target : ℕ) (s : ℕ → String)
    (hs : ∀ k, s k ∈ options) :
    ∀ n, ∀ x ∈ chosenAfter options target s n, x ∈ options := by
  intro n
  induction n with
  | zero => intro x hx; simp [chosenAfter] at hx
  | succ m ih =>
    intro x hx
    unfold chosenAfter at hx
    split at hx
    · exact ih x hx
    · unfold sampleStep at hx
      split at hx
      · exact ih x hx
      · rcases List.mem_append.mp hx with hx | hx
        · exact ih x hx
        · rcases List.mem_singleton.mp hx with rfl
          exact hs m

theorem chosenAfter_length_le_target (options : List String) (target : ℕ)
    (s : ℕ → String) : ∀ n, (chosenAfter options target s n).length ≤ target := by
  intro n
  induction n with
  | zero => simp [chosenAfter]
  | succ m ih =>
    unfold chosenAfter
    split
    · exact ih
    · rename_i hnd
      unfold sampleDone at hnd
      push_neg at hnd
      obtain ⟨hlt, _⟩ := hnd
      unfold sampleStep
      split
      · exact ih
      · rw [List.length_append, List.length_singleton]
        omega

theorem chosenAfter_mono_step (options : List String) (target : ℕ)
    (s : ℕ → String) (n : ℕ) :
    ∀ x ∈ chosenAfter options target s n, x ∈ chosenAfter options target s (n + 1) := by
  intro x hx
  unfold chosenAfter
  split
  · exact hx
  · exact sampleStep_mem_of_mem _ _ _ hx

theorem chosenAfter_mono (options : List String) (target : ℕ) (s : ℕ → String)
    (m n : ℕ) (h : m ≤ n) :
    ∀ x ∈ chosenAfter options target s m, x ∈ chosenAfter options target s n := by
  induction n, h using Nat.le_induction with
  | base => exact fun x hx => hx
  | succ n hmn ih =>
    exact fun x hx => chosenAfter_mono_step options target s n x (ih x hx)

theorem sampleDone_stable (options : List String) (target : ℕ) (s : ℕ → String)
    (m : ℕ) (h : sampleDone options target (chosenAfter options target s m))
    (n : ℕ) (hmn : m ≤ n) :
    chosenAfter options target s n = chosenAfter options target s m := by
  induction n, hmn using Nat.le_induction with
  | base => rfl
  | succ n hmn ih =>
    rw [chosenAfter_succ, ih, if_pos h]

theorem exists_missing (options chosen : List String) (hno : options.Nodup)
    (_hsub : ∀ x ∈ chosen, x ∈ options) (_hnd : chosen.Nodup)
    (hlen : chosen.length < options.length) :
    ∃ o ∈ options, o ∉ chosen := by
  by_contra hcon
  push_neg at hcon
  have hsub2 : options ⊆ chosen := fun o ho => hcon o ho
  have := (List.subperm_of_subset hno hsub2).length_le
  omega

/-- C7 counterexample: the draw loop of `_weighted_unique_sample` is NOT
guaranteed to terminate for every stream of draws — already-chosen names
are only discarded, not excluded from subsequent draws, so the stream that
returns "Engineering" forever never finishes a target-2 selection over the
15-name catalog. -/
theorem C7_sample_nontermination :
    ¬ sampleTerminatesOn base_names 2 (fun _ => "Engineering") := by
  have hstate : ∀ n, chosenAfter base_names 2 (fun _ => "Engineering") n =
      if n = 0 then [] else ["Engineering"] := by
    intro n
    induction n with
    | zero => rfl
    | succ m ih =>
      unfold chosenAfter
      rw [ih]
      rcases Nat.eq_zero_or_pos m with rfl | hm
      · rw [if_pos rfl, if_neg (by decide)]
        rfl
      · rw [if_neg (Nat.pos_iff_ne_zero.mp hm), if_neg (by decide),
          if_neg (Nat.succ_ne_zero m)]
        rfl
  rintro ⟨n, hn⟩
  rw [hstate n] at hn
  rcases Nat.eq_zero_or_pos n with rfl | hpos
  · rw [if_pos rfl] at hn
    exact hn (by decide)
  · rw [if_neg (Nat.pos_iff_ne_zero.mp hpos)] at hn
    exact hn (by decide)

/-- C7 (amended): the selection holds its advertised result shape — the
chosen list never contains duplicates, and whenever the loop guard fails
(the loop exits) its length is exactly the smaller of the target count and
the catalog size; and the loop does terminate on every draw stream that
eventually draws each catalog name (which happens with probability 1 under
`random.choices` with the positive catalog weights) — but not, as the
claim states, on EVERY stream (see the counterexample). -/
theorem C7_sample_amended :
    (∀ (options : List String) (target : ℕ) (s : ℕ → String) (n : ℕ),
      (chosenAfter options target s n).Nodup) ∧
    (∀ (options : List String) (target : ℕ) (s : ℕ → String) (n : ℕ),
      (∀ k, s k ∈ options) → options.Nodup →
      sampleDone options target (chosenAfter options target s n) →
      (chosenAfter options target s n).length = min target options.length) ∧
    (∀ (options : List String) (target : ℕ) (s : ℕ → String) (N : ℕ),
      (∀ k, s k ∈ options) → options.Nodup →
      (∀ o ∈ options, ∃ k, k < N ∧ s k = o) →
      sampleDone options target (chosenAfter options target s N)) := by
  refine ⟨fun options target s n => chosenAfter_nodup options target s n, ?_, ?_⟩
  · intro options target s n hs hno hdone
    have h1 := chosenAfter_length_le_target options target s n
    have h2 : (chosenAfter options target s n).length ≤ options.length := by
      have hsub : chosenAfter options target s n ⊆ options :=
        fun x hx => chosenAfter_subset options target s hs n x hx
      exact (List.subperm_of_subset (chosenAfter_nodup options target s n) hsub).length_le
    unfold sampleDone at hdone
    push_neg at hdone
    rw [Nat.min_def]
    rcases Nat.lt_or_ge (chosenAfter options target s n).length target with hlt | hge
    · have h3 := hdone hlt
      split <;> omega
    · split <;> omega
  · intro options target s N hs hno hcover
    by_contra hnd
    unfold sampleDone at hnd
    push_neg at hnd
    obtain ⟨hlt_t, hlt_o⟩ := hnd
    obtain ⟨o, ho, hnotin⟩ := exists_missing options (chosenAfter options target s N)
      hno (fun x hx => chosenAfter_subset options target s hs N x hx)
      (chosenAfter_nodup options target s N) hlt_o
    obtain ⟨k, hkN, hsk⟩ := hcover o ho
    by_cases hdk : sampleDone options target (chosenAfter options target s k)
    · have heq := sampleDone_stable options target s k hdk N (le_of_lt hkN)
      rw [heq] at hlt_t hlt_o
      unfold sampleDone at hdk
      exact hdk ⟨hlt_t, hlt_o⟩
    · have hin : o ∈ chosenAfter options target s (k + 1) := by
        unfold chosenAfter
        rw [if_neg hdk]
        unfold sampleStep
        rw [hsk]
        split
        · assumption
        · exact List.mem_append_right _ (List.mem_singleton.mpr rfl)
      exact hnotin (chosenAfter_mono options target s (k + 1) N hkN o hin)

/-- C7 witness: a single-name catalog with target 1 and the constant
stream: after one draw the loop guard fails, with a duplicate-free result
of length min 1 1. -/
theorem C7_sample_amended_witness :
    (chosenAfter ["A"] 1 (fun _ => "A") 1).Nodup ∧
    (chosenAfter ["A"] 1 (fun _ => "A") 1).length =
      min 1 (["A"] : List String).length ∧
    sampleDone ["A"] 1 (chosenAfter ["A"] 1 (fun _ => "A") 1) := by
  refine ⟨C7_sample_amended.1 ["A"] 1 (fun _ => "A") 1, ?_, ?_⟩
  · exact C7_sample_amended.2.1 ["A"] 1 (fun _ => "A") 1
      (fun k => by simp) (by simp) (by decide)
  · exact C7_sample_amended.2.2 ["A"] 1 (fun _ => "A") 1
      (fun k => by simp) (by simp)
      (by intro o ho; rcases List.mem_singleton.mp ho with rfl; exact ⟨0, by omega, rfl⟩)

theorem lookup_team_id_mem (teams : List TeamRec) (name tid : String)
    (h : lookup_team_id teams name = some tid) : tid ∈ team_ids teams := by
  unfold lookup_team_id at h
  cases hfind : teams.reverse.find? (fun t => t.name == name) with
  | none => rw [hfind] at h; simp at h
  | some t =>
    rw [hfind] at h
    have h2 : t.id = tid := Option.some.inj h
    have htm : t ∈ teams.reverse := List.mem_of_find?_eq_some hfind
    rw [← h2]
    exact List.mem_map.mpr ⟨t, List.mem_reverse.mp htm, rfl⟩

theorem preferred_team_ids_subset (teams : List TeamRec) (role : String) :
    ∀ tid ∈ preferred_team_ids teams role, tid ∈ team_ids teams := by
  intro tid h
  unfold preferred_team_ids at h
  obtain ⟨name, _, hlook⟩ := List.mem_filterMap.mp h
  exact lookup_team_id_mem teams name tid hlook

theorem remaining_team_ids_subset (teams : List TeamRec) (role : String) :
    ∀ tid ∈ remaining_team_ids teams role, tid ∈ team_ids teams := by
  intro tid h
  unfold remaining_team_ids at h
  exact (List.mem_filter.mp h).1

theorem remaining_eq_team_ids_of_no_preferred (teams : List TeamRec)
    (role : String) (h : preferred_team_ids teams role = []) :
    remaining_team_ids teams role = team_ids teams := by
  unfold remaining_team_ids
  rw [h]
  exact List.filter_eq_self.mpr (fun a _ => by simp)

/-- C8 counterexample: over an EMPTY team roster, a user ends with zero
memberships — `chosen` stays empty and the zero-membership guard
(`if not chosen and team_ids`) cannot fire, because it also requires the
roster to be non-empty; the claim's "at least 1 membership for any team
roster" fails.  The `random.sample` constraint on `extras` is satisfied at
this input. -/
theorem C8_membership_routing_counterexample :
    route_user [] "Software Engineer" 1 [] 0 = [] ∧
    ¬ (1 ≤ (route_user [] "Software Engineer" 1 [] 0).length) ∧
    ([] : List String).length =
      min (remaining_team_ids [] "Software Engineer").length
        (1 - (chosen_from_preferred [] "Software Engineer" 1).length) := by
  refine ⟨rfl, by decide, rfl⟩

/-- C8 (amended): over any NON-EMPTY team roster, each user's routed team
list has between 1 and 3 elements (for the drawn membership count
`desired ∈ {1, 2, 3}` and `extras` as `random.sample` produces them) and
every routed team id is an id of a roster team; over an empty roster the
routed list is empty and the user gets zero memberships. -/
theorem C8_membership_routing_amended (teams : List TeamRec) (role : String)
    (desired : ℕ) (extras : List String) (fallback : ℕ)
    (hne : teams ≠ []) (hd1 : 1 ≤ desired) (hd3 : desired ≤ 3)
    (hexlen : extras.length =
      min (remaining_team_ids teams role).length
        (desired - (chosen_from_preferred teams role desired).length))
    (hexsub : ∀ x ∈ extras, x ∈ remaining_team_ids teams role) :
    1 ≤ (route_user teams role desired extras fallback).length ∧
    (route_user teams role desired extras fallback).length ≤ 3 ∧
    ∀ tid ∈ route_user teams role desired extras fallback, tid ∈ team_ids teams := by
  have hids : team_ids teams ≠ [] := by
    unfold team_ids
    simpa using hne
  have hc0len : (chosen_from_preferred teams role desired).length =
      min desired (preferred_team_ids teams role).length := by
    unfold chosen_from_preferred
    exact List.length_take _ _
  have hc0sub : ∀ tid ∈ chosen_from_preferred teams role desired,
      tid ∈ team_ids teams := by
    intro tid h
    exact preferred_team_ids_subset teams role tid
      (List.mem_of_mem_take h)
  have hc1sub : ∀ tid ∈ chosen_with_extras teams role desired extras,
      tid ∈ team_ids teams := by
    intro tid h
    unfold chosen_with_extras at h
    split at h
    · rcases List.mem_append.mp h with h | h
      · exact hc0sub tid h
      · exact remaining_team_ids_subset teams role tid (hexsub tid h)
    · exact hc0sub tid h
  have hc1len : 1 ≤ (chosen_with_extras teams role desired extras).length ∧
      (chosen_with_extras teams role desired extras).length ≤ 3 := by
    unfold chosen_with_extras
    split
    · rename_i hshort
      rw [List.length_append, hexlen]
      rcases hpn : preferred_team_ids teams role with _ | ⟨p, ps⟩
      · have hrem : remaining_team_ids teams role = team_ids teams :=
          remaining_eq_team_ids_of_no_preferred teams role hpn
        have hremlen : 1 ≤ (remaining_team_ids teams role).length := by
          rw [hrem]
          exact List.length_pos.mpr hids
        have hc0 : (chosen_from_preferred teams role desired).length = 0 := by
          rw [hc0len, hpn]
          simp
        rw [hc0]
        omega
      · have hc0pos : 1 ≤ (chosen_from_preferred teams role desired).length := by
          rw [hc0len, hpn]
          simp
          omega
        omega
    · rename_i hfull
      push_neg at hfull
      have := hc0len
      omega
  have hc1ne : chosen_with_extras teams role desired extras ≠ [] := by
    intro hcontr
    rw [hcontr] at hc1len
    simp at hc1len
  have hroute : route_user teams role desired extras fallback =
      chosen_with_extras teams role desired extras := by
    unfold route_user
    rw [if_neg]
    intro ⟨hc, _⟩
    exact hc1ne hc
  rw [hroute]
  exact ⟨hc1len.1, hc1len.2, hc1sub⟩

/-- C8 witness: a one-team roster ("Engineering") and an engineer user with
membership count 1: the routed list is exactly that team, within bounds. -/
theorem C8_membership_routing_amended_witness :
    1 ≤ (route_user [{ id := "t1", name := "Engineering" }] "Software Engineer"
        1 [] 0).length ∧
    (route_user [{ id := "t1", name := "Engineering" }] "Software Engineer"
        1 [] 0).length ≤ 3 ∧
    ∀ tid ∈ route_user [{ id := "t1", name := "Engineering" }] "Software Engineer"
        1 [] 0, tid ∈ team_ids [{ id := "t1", name := "Engineering" }] :=
  C8_membership_routing_amended [{ id := "t1", name := "Engineering" }]
    "Software Engineer" 1 [] 0 (by simp) (by omega) (by omega)
    (by decide) (by intro x hx; simp at hx)

/-- C10: within one run, all memberships created for a single user share
the same `added_at` and the same role-in-team, because the router draws the
`added_at` offset and the lead/member role once per user, before iterating
over that user's chosen teams; consequently no user is simultaneously a
"lead" of one team and a "member" of another. -/
theorem C10_membership_role_uniform (teams : List TeamRec)
    (user_id user_role : String) (desired : ℕ) (extras : List String)
    (fallback : ℕ) (now : ℚ) (days : ℤ) (r1 r2 : ℚ) (m1 m2 : MembershipRec)
    (h1 : m1 ∈ route_and_member_user teams user_id user_role desired extras
      fallback now days r1 r2)
    (h2 : m2 ∈ route_and_member_user teams user_id user_role desired extras
      fallback now days r1 r2) :
    m1.role = m2.role ∧ m1.added_at = m2.added_at ∧
      ¬ (m1.role = "lead" ∧ m2.role = "member") := by
  unfold route_and_member_user memberships_for_user at h1 h2
  obtain ⟨t1, _, rfl⟩ := List.mem_map.mp h1
  obtain ⟨t2, _, rfl⟩ := List.mem_map.mp h2
  refine ⟨rfl, rfl, ?_⟩
  rintro ⟨ha, hb⟩
  exact absurd (ha.symm.trans hb) (by decide)

/-- C10 witness: the one-team engineer routing with rolls r1 = r2 = 1/2
produces a single "member" membership; the theorem applied to it twice
confirms equal role and `added_at`, and rules out the lead/member split. -/
theorem C10_membership_role_uniform_witness :
    ¬ ((MembershipRec.mk "t1" "u1"
          (pick_membership_role "Software Engineer" (1/2) (1/2))
          (membership_added_at 0 30)).role = "lead" ∧
       (MembershipRec.mk "t1" "u1"
          (pick_membership_role "Software Engineer" (1/2) (1/2))
          (membership_added_at 0 30)).role = "member") := by
  have hr : route_user [TeamRec.mk "t1" "Engineering"] "Software Engineer" 1 [] 0 =
      ["t1"] := rfl
  have hmem : MembershipRec.mk "t1" "u1"
      (pick_membership_role "Software Engineer" (1/2) (1/2))
      (membership_added_at 0 30) ∈
      route_and_member_user [TeamRec.mk "t1" "Engineering"]
        "u1" "Software Engineer" 1 [] 0 0 30 (1/2) (1/2) := by
    unfold route_and_member_user
    rw [hr]
    exact List.mem_singleton.mpr rfl
  exact (C10_membership_role_uniform [TeamRec.mk "t1" "Engineering"]
    "u1" "Software Engineer" 1 [] 0 0 30 (1/2) (1/2) _ _ hmem hmem).2.2

end AsanaSeed
